import Mathlib

/-!
Verification of the kasboek web application's category recommender
(`recommend_category`, `calculate_similarity`) and balance computation
(`calculate_total_amount`) from `webapp.py`, via a shallow embedding.

Strings are modelled with Lean `String`; Python floats are modelled as
exact rationals `ℚ`; spreadsheet cells that may be absent are modelled
as `Option String` (recommender sheet) or a `Cell` sum type (kasboek
sheet), with `none`/`Cell.empty` standing for Python `None`.
-/

namespace Kasboek

/-- Characterwise lower-casing, modelling Python `str.lower`. -/
def pyLower (s : String) : String := String.mk (s.data.map Char.toLower)

/-- Strip leading and trailing whitespace, modelling Python `str.strip`. -/
def pyStrip (s : String) : String :=
  String.mk (((s.data.dropWhile Char.isWhitespace).reverse.dropWhile Char.isWhitespace).reverse)

/-- Helper for `pySplit`: walk the characters, accumulating the current
(reversed) token; whitespace ends a token, empty fragments are dropped. -/
def splitWsAux : List Char → List Char → List String
  | [], [] => []
  | [], cur => [String.mk cur.reverse]
  | c :: cs, cur =>
    if c.isWhitespace then
      match cur with
      | [] => splitWsAux cs []
      | _ :: _ => String.mk cur.reverse :: splitWsAux cs []
    else splitWsAux cs (c :: cur)

/-- Whitespace tokenization modelling Python `str.split()` with no
separator argument: split on runs of whitespace, dropping empty fragments. -/
def pySplit (s : String) : List String := splitWsAux s.data []

/-- The token set `set(text.split())` of a text. -/
def tokenSet (text : String) : Finset String := (pySplit text).toFinset

/-- Shallow embedding of `calculate_similarity` (webapp.py 478-486):
word-overlap similarity of two texts. -/
def calculate_similarity (text1 text2 : String) : ℚ :=
  let words1 := tokenSet text1
  let words2 := tokenSet text2
  if words1 = ∅ ∨ words2 = ∅ then 0
  else ((words1 ∩ words2).card : ℚ) / ((words1 ∪ words2).card : ℚ)

/-! ### The reference dataset (category_test_set.xlsx)

A row of the recommender's reference sheet is a list of optional text
cells; `none` models an empty cell (openpyxl yields Python `None`).
Reading past the end of a row also yields `none`.  -/

abbrev RRow := List (Option String)

/-- Python truthiness of a cell: `None` and the empty string are falsy. -/
def cellTruthy : Option String → Bool
  | some s => s ≠ ""
  | none => false

/-- `str(cell)` for a cell value. -/
def strCell : Option String → String
  | some s => s
  | none => "None"

/-- One training example: a lower-cased description and its category. -/
structure TrainingItem where
  description : String
  category : String
deriving DecidableEq, Repr

/-- The row-collection loop of `recommend_category` (webapp.py 468-473):
keep rows whose column 2 (description) and column 3 (category) are both
truthy, lower-casing the description. -/
def collectTraining : List RRow → List TrainingItem
  | [] => []
  | r :: rs =>
    if cellTruthy (r.getD 2 none) && cellTruthy (r.getD 3 none) then
      ⟨pyLower (strCell (r.getD 2 none)), strCell (r.getD 3 none)⟩ :: collectTraining rs
    else
      collectTraining rs

/-- Training data of a sheet: `iter_rows(min_row=2)` skips the header row. -/
def trainingData (sheet : List RRow) : List TrainingItem :=
  collectTraining (sheet.drop 1)

/-! ### Matches and the recommendation pipeline -/

/-- A match record `{category, score, example}` (webapp.py 493-497). -/
structure Match where
  category : String
  score : ℚ
  exampleDesc : String
deriving DecidableEq, Repr

/-- The normalized query: `str(...).strip().lower()` (webapp.py 452). -/
def queryNorm (q : String) : String := pyLower (pyStrip q)

/-- The match-collection loop (webapp.py 489-497): one match per training
item whose similarity with the query is positive. -/
def matchesOf (training : List TrainingItem) (description : String) : List Match :=
  training.filterMap fun item =>
    if 0 < calculate_similarity description item.description then
      some ⟨item.category, calculate_similarity description item.description,
            item.description⟩
    else none

/-- Stable insertion of a match into a list sorted by descending score:
the new element goes in front of the first element whose score is not
larger.  Together with `sortDesc` this models Python's stable
`sort(key=score, reverse=True)`. -/
def insertDesc (m : Match) : List Match → List Match
  | [] => [m]
  | a :: rest => if a.score ≤ m.score then m :: a :: rest else a :: insertDesc m rest

/-- Stable sort by descending score, modelling Python's stable
`list.sort(key=lambda x: x['score'], reverse=True)`. -/
def sortDesc : List Match → List Match
  | [] => []
  | m :: rest => insertDesc m (sortDesc rest)

/-- One update of the `seen_categories` dict (webapp.py 503-507): a new
category is appended; an existing category is replaced in place only when
the new score is strictly greater.  Python dicts preserve first-insertion
order of keys. -/
def insertMatch (acc : List Match) (m : Match) : List Match :=
  match acc with
  | [] => [m]
  | a :: rest =>
    if a.category = m.category then
      (if a.score < m.score then m else a) :: rest
    else
      a :: insertMatch rest m

/-- The grouping loop over the sorted matches (webapp.py 503-507). -/
def dedupByCategory (l : List Match) : List Match := l.foldl insertMatch []

/-- First occurrence per category, skipping categories already in `seen`:
the closed form the `seen_categories` loop takes on a score-sorted input,
used only in proofs. -/
def firstOccEx (seen : List String) : List Match → List Match
  | [] => []
  | m :: rest =>
    if m.category ∈ seen then firstOccEx seen rest
    else m :: firstOccEx (m.category :: seen) rest

/-- The score-sorted match list for a sheet and query. -/
def sortedMatchesFor (sheet : List RRow) (q : String) : List Match :=
  sortDesc (matchesOf (trainingData sheet) (queryNorm q))

/-- Shallow embedding of the endpoint `recommend_category`
(webapp.py 447-518).  The reference workbook is passed as
`Option (List RRow)`: `none` models a missing or unreadable
`static/category_test_set.xlsx`, which the code turns into an empty
recommendation list. -/
def recommend_category (sheet? : Option (List RRow)) (q : String) : List Match :=
  if queryNorm q = "" ∨ (queryNorm q).length < 3 then []
  else
    match sheet? with
    | none => []
    | some sheet =>
      (sortDesc (dedupByCategory (sortedMatchesFor sheet q))).take 5

/-! ### The kasboek workbook and `calculate_total_amount` -/

/-- A spreadsheet cell of the kasboek sheet: text, a number, or empty. -/
inductive Cell where
  | str (v : String)
  | num (v : ℚ)
  | empty
deriving DecidableEq, Repr

/-- A row of the kasboek sheet. -/
abbrev KRow := List Cell

/-- A workbook: named sheets in file order. -/
structure Workbook where
  sheets : List (String × List KRow)
deriving DecidableEq

/-- `wb.sheetnames`. -/
def Workbook.sheetnames (wb : Workbook) : List String := wb.sheets.map Prod.fst

/-- `wb[name]`: the first sheet carrying the name. -/
def Workbook.getSheet (wb : Workbook) (name : String) : List KRow :=
  match wb.sheets.find? (fun s => s.1 = name) with
  | some s => s.2
  | none => []

/-- Round-half-to-even to an integer, modelling Python's `round`. -/
def roundHalfEven (q : ℚ) : ℤ :=
  if q - ⌊q⌋ < 1/2 then ⌊q⌋
  else if 1/2 < q - ⌊q⌋ then ⌊q⌋ + 1
  else if 2 ∣ ⌊q⌋ then ⌊q⌋ else ⌊q⌋ + 1

/-- Python `round(x, 2)`. -/
def round2 (q : ℚ) : ℚ := (roundHalfEven (q * 100) : ℚ) / 100

/-- One loop iteration of `calculate_total_amount` (webapp.py 237-243):
`af_bij` is column F (0-based index 5), `amount` is column G (index 6);
only a numeric amount changes the total, subtracted on `"Af"` and added
on `"Bij"`. -/
def totalStep (total : ℚ) (row : KRow) : ℚ :=
  match row.getD 6 Cell.empty with
  | Cell.num a =>
    if row.getD 5 Cell.empty = Cell.str "Af" then total - a
    else if row.getD 5 Cell.empty = Cell.str "Bij" then total + a
    else total
  | _ => total

/-- Shallow embedding of `calculate_total_amount` (webapp.py 226-248).
`none` models a missing `EXCEL_FILE_PATH`; an absent sheet name also
yields 0; otherwise the signed amounts of the data rows (header skipped)
are accumulated and rounded to 2 decimals. -/
def calculate_total_amount (file : Option Workbook) (sheetName : String) : ℚ :=
  match file with
  | none => 0
  | some wb =>
    if sheetName ∈ wb.sheetnames then
      round2 (((wb.getSheet sheetName).drop 1).foldl totalStep 0)
    else 0

/-! ### Spec-side definitions, for refinement statements only -/

/-- Modelled from the spec: the Jaccard index `|intersection| / |union|`
of the two token sets (in ℚ the quotient is 0 when both sets are empty). -/
def jaccardIndex (t1 t2 : String) : ℚ :=
  ((tokenSet t1 ∩ tokenSet t2).card : ℚ) / ((tokenSet t1 ∪ tokenSet t2).card : ℚ)

/-- Modelled from the spec of C10: the signed contribution of one data
row, `+amount` on `"Bij"`, `-amount` on `"Af"`, 0 otherwise. -/
def rowContribution (row : KRow) : ℚ :=
  match row.getD 6 Cell.empty with
  | Cell.num a =>
    if row.getD 5 Cell.empty = Cell.str "Bij" then a
    else if row.getD 5 Cell.empty = Cell.str "Af" then -a
    else 0
  | _ => 0

/-! ### A concrete reference sheet, used by the witness theorems -/

/-- The scenario sheet from the spec: a header row and two examples. -/
def demoSheet : List RRow :=
  [[some "Datum", some "Bedrag", some "Mededelingen", some "Tag"],
   [none, none, some "Koffie en thee", some "Materiaal"],
   [none, none, some "koffie voor training", some "Training"]]

/-! ### Lemmas about the stable descending sort -/

theorem insertDesc_perm (m : Match) (l : List Match) :
    List.Perm (insertDesc m l) (m :: l) := by
  induction l with
  | nil => simp [insertDesc]
  | cons a rest ih =>
    rw [insertDesc]
    split
    · exact List.Perm.refl _
    · exact (ih.cons a).trans (List.Perm.swap m a rest)

theorem sortDesc_perm (l : List Match) : List.Perm (sortDesc l) l := by
  induction l with
  | nil => simp [sortDesc]
  | cons m rest ih => exact (insertDesc_perm m (sortDesc rest)).trans (ih.cons m)

theorem mem_sortDesc {x : Match} {l : List Match} : x ∈ sortDesc l ↔ x ∈ l :=
  (sortDesc_perm l).mem_iff

theorem insertDesc_pairwise {m : Match} {l : List Match}
    (h : l.Pairwise (fun a b => b.score ≤ a.score)) :
    (insertDesc m l).Pairwise (fun a b => b.score ≤ a.score) := by
  induction l with
  | nil => simp [insertDesc]
  | cons a rest ih =>
    rw [List.pairwise_cons] at h
    rw [insertDesc]
    split
    · rename_i hc
      refine List.pairwise_cons.mpr ⟨?_, List.pairwise_cons.mpr h⟩
      intro b hb
      rcases List.mem_cons.mp hb with rfl | hb
      · exact hc
      · exact le_trans (h.1 b hb) hc
    · rename_i hc
      refine List.pairwise_cons.mpr ⟨?_, ih h.2⟩
      intro b hb
      rcases List.mem_cons.mp ((insertDesc_perm m rest).mem_iff.mp hb) with rfl | hb
      · exact le_of_lt (not_le.mp hc)
      · exact h.1 b hb

theorem sortDesc_pairwise (l : List Match) :
    (sortDesc l).Pairwise (fun a b => b.score ≤ a.score) := by
  induction l with
  | nil => simp [sortDesc]
  | cons m rest ih => exact insertDesc_pairwise ih

theorem sortDesc_of_sorted {l : List Match}
    (h : l.Pairwise (fun a b => b.score ≤ a.score)) : sortDesc l = l := by
  induction l with
  | nil => rfl
  | cons m rest ih =>
    rw [List.pairwise_cons] at h
    rw [sortDesc, ih h.2]
    cases rest with
    | nil => rfl
    | cons a rest2 =>
      rw [insertDesc, if_pos (h.1 a (List.mem_cons_self a rest2))]

theorem filter_insertDesc (p : Match → Bool) (m : Match) (l : List Match)
    (h : ∀ x ∈ l, p x = true → p m = true → x.score ≤ m.score) :
    (insertDesc m l).filter p = (m :: l).filter p := by
  induction l with
  | nil => rfl
  | cons a rest ih =>
    have ihr := ih (fun x hx => h x (List.mem_cons_of_mem a hx))
    rw [insertDesc]
    split
    · rfl
    · rename_i hc
      rw [List.filter_cons, ihr]
      by_cases pm : p m = true
      · have pa : ¬ p a = true := fun pa => hc (h a (List.mem_cons_self a rest) pa pm)
        simp [List.filter_cons, pa, pm]
      · by_cases pa : p a = true <;> simp [List.filter_cons, pa, pm]

theorem filter_sortDesc (p : Match → Bool) (l : List Match)
    (hs : ∀ x y, p x = true → p y = true → x.score = y.score) :
    (sortDesc l).filter p = l.filter p := by
  induction l with
  | nil => rfl
  | cons m rest ih =>
    rw [sortDesc]
    rw [filter_insertDesc p m (sortDesc rest)
      (fun x _ px pm => le_of_eq (hs x m px pm))]
    by_cases pm : p m = true <;> simp [List.filter_cons, pm, ih]

/-! ### Lemmas about the per-category de-duplication -/

theorem insertMatch_of_not_mem {acc : List Match} {m : Match}
    (h : m.category ∉ acc.map Match.category) : insertMatch acc m = acc ++ [m] := by
  induction acc with
  | nil => rfl
  | cons a rest ih =>
    rw [insertMatch]
    rw [List.map_cons, List.mem_cons] at h
    push_neg at h
    rw [if_neg (fun e => h.1 e.symm), ih h.2]
    rfl

theorem insertMatch_of_mem {acc : List Match} {m : Match}
    (hmem : m.category ∈ acc.map Match.category)
    (hle : ∀ a ∈ acc, ¬ a.score < m.score) : insertMatch acc m = acc := by
  induction acc with
  | nil => simp at hmem
  | cons a rest ih =>
    rw [insertMatch]
    by_cases e : a.category = m.category
    · rw [if_pos e, if_neg (hle a (List.mem_cons_self a rest))]
    · rw [if_neg e]
      rw [List.map_cons, List.mem_cons] at hmem
      rcases hmem with h1 | h2
      · exact absurd h1.symm e
      · rw [ih h2 (fun x hx => hle x (List.mem_cons_of_mem a hx))]

theorem firstOccEx_congr {s1 s2 : List String} (h : ∀ c, c ∈ s1 ↔ c ∈ s2) :
    ∀ l, firstOccEx s1 l = firstOccEx s2 l := by
  intro l
  induction l generalizing s1 s2 with
  | nil => rfl
  | cons m rest ih =>
    rw [firstOccEx, firstOccEx]
    by_cases hm : m.category ∈ s1
    · rw [if_pos hm, if_pos ((h _).mp hm)]
      exact ih h
    · rw [if_neg hm, if_neg (fun hx => hm ((h _).mpr hx))]
      congr 1
      exact ih (fun c => by simp only [List.mem_cons, h c])

theorem foldl_insertMatch_eq :
    ∀ (l acc : List Match),
      (∀ a ∈ acc, ∀ x ∈ l, x.score ≤ a.score) →
      l.Pairwise (fun a b => b.score ≤ a.score) →
      l.foldl insertMatch acc = acc ++ firstOccEx (acc.map Match.category) l := by
  intro l
  induction l with
  | nil =>
    intro acc _ _
    simp [firstOccEx]
  | cons m rest ih =>
    intro acc hacc hsort
    rw [List.pairwise_cons] at hsort
    rw [List.foldl_cons, firstOccEx]
    by_cases hm : m.category ∈ acc.map Match.category
    · rw [if_pos hm]
      have hin : insertMatch acc m = acc :=
        insertMatch_of_mem hm
          (fun a ha => not_lt.mpr (hacc a ha m (List.mem_cons_self m rest)))
      rw [hin]
      exact ih acc (fun a ha x hx => hacc a ha x (List.mem_cons_of_mem m hx)) hsort.2
    · rw [if_neg hm, insertMatch_of_not_mem hm]
      have hacc2 : ∀ a ∈ acc ++ [m], ∀ x ∈ rest, x.score ≤ a.score := by
        intro a ha x hx
        rcases List.mem_append.mp ha with h1 | h2
        · exact hacc a h1 x (List.mem_cons_of_mem m hx)
        · rw [List.mem_singleton] at h2
          subst h2
          exact hsort.1 x hx
      rw [ih (acc ++ [m]) hacc2 hsort.2, List.append_assoc]
      congr 1
      rw [List.singleton_append]
      congr 1
      exact firstOccEx_congr
        (fun c => by
          simp only [List.map_append, List.mem_append, List.mem_cons, List.map_cons,
            List.map_nil, List.mem_singleton, List.not_mem_nil, or_false, false_or]
          exact or_comm) rest

theorem dedupByCategory_sorted {l : List Match}
    (h : l.Pairwise (fun a b => b.score ≤ a.score)) :
    dedupByCategory l = firstOccEx [] l := by
  have step := foldl_insertMatch_eq l [] (by intro a ha; simp at ha) h
  simpa [dedupByCategory] using step

theorem firstOccEx_sublist (seen : List String) (l : List Match) :
    List.Sublist (firstOccEx seen l) l := by
  induction l generalizing seen with
  | nil => simp [firstOccEx]
  | cons m rest ih =>
    rw [firstOccEx]
    split
    · exact (ih seen).cons m
    · exact (ih (m.category :: seen)).cons₂ m

theorem firstOccEx_cat_not_seen {seen : List String} {l : List Match} {e : Match}
    (h : e ∈ firstOccEx seen l) : e.category ∉ seen := by
  induction l generalizing seen with
  | nil => simp [firstOccEx] at h
  | cons m rest ih =>
    by_cases hm : m.category ∈ seen
    · rw [firstOccEx, if_pos hm] at h
      exact ih h
    · rw [firstOccEx, if_neg hm] at h
      rcases List.mem_cons.mp h with rfl | h2
      · exact hm
      · exact fun hs => (ih h2) (List.mem_cons_of_mem _ hs)

theorem firstOccEx_head_filter {seen : List String} {l : List Match} {e : Match}
    (h : e ∈ firstOccEx seen l) :
    (l.filter (fun m => m.category == e.category)).head? = some e := by
  induction l generalizing seen with
  | nil => simp [firstOccEx] at h
  | cons m rest ih =>
    by_cases hm : m.category ∈ seen
    · rw [firstOccEx, if_pos hm] at h
      have hne : ¬ (m.category == e.category) = true := by
        intro hbe
        exact (firstOccEx_cat_not_seen h) ((beq_iff_eq.mp hbe) ▸ hm)
      rw [List.filter_cons, if_neg hne]
      exact ih h
    · rw [firstOccEx, if_neg hm] at h
      rcases List.mem_cons.mp h with rfl | h2
      · rw [List.filter_cons, if_pos (by simp)]
        rfl
      · have hne : ¬ (m.category == e.category) = true := by
          intro hbe
          exact (firstOccEx_cat_not_seen h2)
            (List.mem_cons.mpr (Or.inl (beq_iff_eq.mp hbe).symm))
        rw [List.filter_cons, if_neg hne]
        exact ih h2

theorem firstOccEx_score_max {seen : List String} {l : List Match} {e : Match}
    (hs : l.Pairwise (fun a b => b.score ≤ a.score))
    (h : e ∈ firstOccEx seen l) :
    ∀ x ∈ l, x.category = e.category → x.score ≤ e.score := by
  induction l generalizing seen with
  | nil => simp [firstOccEx] at h
  | cons m rest ih =>
    rw [List.pairwise_cons] at hs
    intro x hx hcat
    by_cases hm : m.category ∈ seen
    · rw [firstOccEx, if_pos hm] at h
      rcases List.mem_cons.mp hx with rfl | hx2
      · exact absurd (hcat ▸ hm) (firstOccEx_cat_not_seen h)
      · exact ih hs.2 h x hx2 hcat
    · rw [firstOccEx, if_neg hm] at h
      rcases List.mem_cons.mp h with rfl | h2
      · rcases List.mem_cons.mp hx with rfl | hx2
        · exact le_refl _
        · exact hs.1 x hx2
      · rcases List.mem_cons.mp hx with rfl | hx2
        · exact absurd (List.mem_cons.mpr (Or.inl hcat.symm))
            (firstOccEx_cat_not_seen h2)
        · exact ih hs.2 h2 x hx2 hcat

theorem firstOccEx_cats_nodup (seen : List String) (l : List Match) :
    ((firstOccEx seen l).map Match.category).Nodup := by
  induction l generalizing seen with
  | nil => simp [firstOccEx]
  | cons m rest ih =>
    by_cases hm : m.category ∈ seen
    · rw [firstOccEx, if_pos hm]
      exact ih seen
    · rw [firstOccEx, if_neg hm, List.map_cons, List.nodup_cons]
      refine ⟨?_, ih _⟩
      intro hmem
      rcases List.mem_map.mp hmem with ⟨x, hx, hxc⟩
      exact (firstOccEx_cat_not_seen hx) (List.mem_cons.mpr (Or.inl hxc))

/-! ### Lemmas about the similarity score and the match list -/

theorem calculate_similarity_eq_jaccard (t1 t2 : String) :
    calculate_similarity t1 t2 = jaccardIndex t1 t2 := by
  show (if tokenSet t1 = ∅ ∨ tokenSet t2 = ∅ then (0:ℚ)
      else ((tokenSet t1 ∩ tokenSet t2).card : ℚ) / ((tokenSet t1 ∪ tokenSet t2).card : ℚ)) =
    jaccardIndex t1 t2
  rw [jaccardIndex]
  by_cases h : tokenSet t1 = ∅ ∨ tokenSet t2 = ∅
  · rw [if_pos h]
    rcases h with h | h <;> rw [h] <;> simp
  · rw [if_neg h]

theorem calculate_similarity_empty {t1 t2 : String}
    (h : tokenSet t1 = ∅ ∨ tokenSet t2 = ∅) : calculate_similarity t1 t2 = 0 := by
  show (if tokenSet t1 = ∅ ∨ tokenSet t2 = ∅ then (0:ℚ)
      else ((tokenSet t1 ∩ tokenSet t2).card : ℚ) / ((tokenSet t1 ∪ tokenSet t2).card : ℚ)) = 0
  rw [if_pos h]

theorem calculate_similarity_le_one (t1 t2 : String) : calculate_similarity t1 t2 ≤ 1 := by
  show (if tokenSet t1 = ∅ ∨ tokenSet t2 = ∅ then (0:ℚ)
      else ((tokenSet t1 ∩ tokenSet t2).card : ℚ) / ((tokenSet t1 ∪ tokenSet t2).card : ℚ)) ≤ 1
  split
  · norm_num
  · rename_i h
    push_neg at h
    have hne : (tokenSet t1 ∪ tokenSet t2).Nonempty := by
      rcases Finset.nonempty_iff_ne_empty.mpr h.1 with ⟨x, hx⟩
      exact ⟨x, Finset.mem_union_left _ hx⟩
    have hu : (0:ℚ) < ((tokenSet t1 ∪ tokenSet t2).card : ℚ) := by
      exact_mod_cast Finset.card_pos.mpr hne
    rw [div_le_one hu]
    exact_mod_cast Finset.card_le_card Finset.inter_subset_union

theorem mem_matchesOf {training : List TrainingItem} {d : String} {m : Match} :
    m ∈ matchesOf training d ↔
      ∃ item ∈ training,
        0 < calculate_similarity d item.description ∧
        m = ⟨item.category, calculate_similarity d item.description, item.description⟩ := by
  rw [matchesOf, List.mem_filterMap]
  constructor
  · rintro ⟨item, hitem, hf⟩
    split at hf
    · rename_i hs
      exact ⟨item, hitem, hs, (Option.some_injective _ hf).symm⟩
    · cases hf
  · rintro ⟨item, hitem, hs, rfl⟩
    exact ⟨item, hitem, by rw [if_pos hs]⟩

theorem matchesOf_score_pos {training : List TrainingItem} {d : String} {m : Match}
    (h : m ∈ matchesOf training d) : 0 < m.score := by
  rcases mem_matchesOf.mp h with ⟨item, _, hs, rfl⟩
  exact hs

theorem matchesOf_score_le_one {training : List TrainingItem} {d : String} {m : Match}
    (h : m ∈ matchesOf training d) : m.score ≤ 1 := by
  rcases mem_matchesOf.mp h with ⟨item, _, _, rfl⟩
  exact calculate_similarity_le_one _ _

/-! ### Lemmas about the training-data loop and the balance loop -/

theorem collectTraining_append (l1 l2 : List RRow) :
    collectTraining (l1 ++ l2) = collectTraining l1 ++ collectTraining l2 := by
  induction l1 with
  | nil => rfl
  | cons r rs ih =>
    rw [List.cons_append, collectTraining, collectTraining]
    split <;> simp [ih]

theorem totalStep_eq (c : ℚ) (r : KRow) : totalStep c r = c + rowContribution r := by
  rw [totalStep, rowContribution]
  cases r.getD 6 Cell.empty with
  | num a =>
    dsimp only
    by_cases h5 : r.getD 5 Cell.empty = Cell.str "Af"
    · have hb : r.getD 5 Cell.empty ≠ Cell.str "Bij" := by
        rw [h5]
        decide
      rw [if_pos h5, if_neg hb, if_pos h5]
      ring
    · by_cases hb : r.getD 5 Cell.empty = Cell.str "Bij"
      · rw [if_neg h5, if_pos hb, if_pos hb]
      · rw [if_neg h5, if_neg hb, if_neg hb, if_neg h5]
        ring
  | str v => ring
  | empty => ring

theorem foldl_totalStep (l : List KRow) :
    ∀ c : ℚ, l.foldl totalStep c = c + (l.map rowContribution).sum := by
  induction l with
  | nil => simp
  | cons r rs ih =>
    intro c
    rw [List.foldl_cons, ih, List.map_cons, List.sum_cons, totalStep_eq]
    ring

/-! ### Structural lemmas about `recommend_category` -/

theorem recommend_eq {sheet : List RRow} {q : String}
    (hq : ¬(queryNorm q = "" ∨ (queryNorm q).length < 3)) :
    recommend_category (some sheet) q =
      (firstOccEx [] (sortedMatchesFor sheet q)).take 5 := by
  rw [recommend_category, if_neg hq]
  have hs : (sortedMatchesFor sheet q).Pairwise (fun a b => b.score ≤ a.score) :=
    sortDesc_pairwise _
  rw [dedupByCategory_sorted hs,
    sortDesc_of_sorted (List.Pairwise.sublist (firstOccEx_sublist [] _) hs)]

theorem recommend_none_eq (q : String) : recommend_category none q = [] := by
  rw [recommend_category]
  split <;> rfl

/-! ### The claims -/

/-- Claim C1: for every reference sheet and query, the recommendation result
has at most 5 entries, its categories are pairwise distinct, and every
entry is itself one of the query's match records (hence carries a
matching example description) whose score is maximal among all matches
of its category. -/
theorem recommend_top5_distinct_best (sheet : List RRow) (q : String) :
    (recommend_category (some sheet) q).length ≤ 5 ∧
    ((recommend_category (some sheet) q).map Match.category).Nodup ∧
    ∀ e ∈ recommend_category (some sheet) q,
      e ∈ matchesOf (trainingData sheet) (queryNorm q) ∧
      ∀ x ∈ matchesOf (trainingData sheet) (queryNorm q),
        x.category = e.category → x.score ≤ e.score := by
  by_cases hq : queryNorm q = "" ∨ (queryNorm q).length < 3
  · rw [recommend_category, if_pos hq]
    simp
  · rw [recommend_eq hq]
    refine ⟨?_, ?_, ?_⟩
    · rw [List.length_take]
      exact min_le_left _ _
    · exact List.Nodup.sublist ((List.take_sublist 5 _).map Match.category)
        (firstOccEx_cats_nodup [] _)
    · intro e he
      have heF : e ∈ firstOccEx [] (sortedMatchesFor sheet q) := List.mem_of_mem_take he
      have hsm : e ∈ sortedMatchesFor sheet q := (firstOccEx_sublist [] _).subset heF
      refine ⟨mem_sortDesc.mp hsm, ?_⟩
      intro x hx hcat
      exact firstOccEx_score_max (sortDesc_pairwise _) heF x (mem_sortDesc.mpr hx) hcat

unseal Rat.mul Rat.inv in
theorem recommend_top5_distinct_best_witness :
    (⟨"Materiaal", 1/3, "koffie en thee"⟩ : Match) ∈
        recommend_category (some demoSheet) "koffie" ∧
    (⟨"Materiaal", 1/3, "koffie en thee"⟩ : Match) ∈
        matchesOf (trainingData demoSheet) (queryNorm "koffie") ∧
    (1 : ℚ)/3 ≤ (1 : ℚ)/3 :=
  ⟨by decide,
   ((recommend_top5_distinct_best demoSheet "koffie").2.2
      ⟨"Materiaal", 1/3, "koffie en thee"⟩ (by decide)).1,
   ((recommend_top5_distinct_best demoSheet "koffie").2.2
      ⟨"Materiaal", 1/3, "koffie en thee"⟩ (by decide)).2
      ⟨"Materiaal", 1/3, "koffie en thee"⟩ (by decide) rfl⟩

/-- Claim C2: the similarity score is exactly the Jaccard index of the two
token sets, it is 0 whenever either token set is empty, and the query
"koffie" against the reference description "koffie en thee" scores 1/3. -/
theorem similarity_is_jaccard :
    (∀ t1 t2 : String, calculate_similarity t1 t2 = jaccardIndex t1 t2) ∧
    (∀ t1 t2 : String, tokenSet t1 = ∅ ∨ tokenSet t2 = ∅ →
      calculate_similarity t1 t2 = 0) ∧
    calculate_similarity "koffie" "koffie en thee" = 1/3 := by
  refine ⟨calculate_similarity_eq_jaccard, fun _ _ h => calculate_similarity_empty h, ?_⟩
  have h1 : (tokenSet "koffie" ∩ tokenSet "koffie en thee").card = 1 := by decide
  have h2 : (tokenSet "koffie" ∪ tokenSet "koffie en thee").card = 3 := by decide
  have h3 : ¬(tokenSet "koffie" = ∅ ∨ tokenSet "koffie en thee" = ∅) := by decide
  show (if tokenSet "koffie" = ∅ ∨ tokenSet "koffie en thee" = ∅ then (0:ℚ)
      else ((tokenSet "koffie" ∩ tokenSet "koffie en thee").card : ℚ) /
        ((tokenSet "koffie" ∪ tokenSet "koffie en thee").card : ℚ)) = 1/3
  rw [if_neg h3, h1, h2]
  norm_num

theorem similarity_is_jaccard_witness :
    tokenSet "" = ∅ ∧ calculate_similarity "" "koffie" = 0 :=
  ⟨by decide, similarity_is_jaccard.2.1 "" "koffie" (Or.inl (by decide))⟩

/-- Claim C3: a query whose trimmed lower-cased form has fewer than 3
characters yields the empty result whatever the reference dataset is
(present, absent, or arbitrary), so the dataset is never consulted. -/
theorem recommend_short_query (q : String) (h : (queryNorm q).length < 3) :
    ∀ sheet? : Option (List RRow), recommend_category sheet? q = [] := by
  intro s
  rw [recommend_category.eq_def, if_pos (Or.inr h)]

theorem recommend_short_query_witness :
    (queryNorm "ab").length < 3 ∧ recommend_category (some demoSheet) "ab" = [] :=
  ⟨by decide, recommend_short_query "ab" (by decide) (some demoSheet)⟩

/-- Claim C4: the recommendation sequence is sorted by non-increasing score:
for positions i < j the score at j is at most the score at i. -/
theorem recommend_sorted (sheet? : Option (List RRow)) (q : String) :
    ∀ i j : Fin (recommend_category sheet? q).length, i < j →
      ((recommend_category sheet? q).get j).score ≤
        ((recommend_category sheet? q).get i).score := by
  have hp : (recommend_category sheet? q).Pairwise (fun a b => b.score ≤ a.score) := by
    by_cases hq : queryNorm q = "" ∨ (queryNorm q).length < 3
    · rw [recommend_category.eq_def, if_pos hq]
      simp
    · cases sheet? with
      | none =>
        rw [recommend_none_eq]
        simp
      | some sheet =>
        rw [recommend_eq hq]
        exact List.Pairwise.sublist (List.take_sublist _ _)
          (List.Pairwise.sublist (firstOccEx_sublist [] _) (sortDesc_pairwise _))
  exact fun i j hij => List.pairwise_iff_get.mp hp i j hij

unseal Rat.mul Rat.inv in
theorem recommend_sorted_witness :
    ((recommend_category (some demoSheet) "koffie").get ⟨1, by decide⟩).score ≤
      ((recommend_category (some demoSheet) "koffie").get ⟨0, by decide⟩).score :=
  recommend_sorted (some demoSheet) "koffie" ⟨0, by decide⟩ ⟨1, by decide⟩ (by decide)

/-- Claim C5: every returned entry's score lies in the half-open interval
(0, 1]: strictly positive and at most 1. -/
theorem recommend_scores_in_unit (sheet? : Option (List RRow)) (q : String) :
    ∀ e ∈ recommend_category sheet? q, 0 < e.score ∧ e.score ≤ 1 := by
  intro e he
  by_cases hq : queryNorm q = "" ∨ (queryNorm q).length < 3
  · rw [recommend_category.eq_def, if_pos hq] at he
    simp at he
  · cases sheet? with
    | none =>
      rw [recommend_none_eq] at he
      simp at he
    | some sheet =>
      rw [recommend_eq hq] at he
      have hm : e ∈ matchesOf (trainingData sheet) (queryNorm q) :=
        mem_sortDesc.mp ((firstOccEx_sublist [] _).subset (List.mem_of_mem_take he))
      exact ⟨matchesOf_score_pos hm, matchesOf_score_le_one hm⟩

unseal Rat.mul Rat.inv in
theorem recommend_scores_in_unit_witness :
    (0 : ℚ) < 1/3 ∧ (1 : ℚ)/3 ≤ 1 :=
  recommend_scores_in_unit (some demoSheet) "koffie"
    ⟨"Materiaal", 1/3, "koffie en thee"⟩ (by decide)

/-- Claim C6: missing or unreadable reference data never surfaces an error:
with an absent dataset the result is the ordinary empty list, exactly the
value a query without matches produces, so the caller cannot tell the two
apart.  (The catch-all exception handler is modelled by the `Option`
dataset argument together with the totality of `recommend_category`.) -/
theorem recommend_degrades_to_empty (q : String) :
    recommend_category none q = [] ∧
    ∀ sheet : List RRow, matchesOf (trainingData sheet) (queryNorm q) = [] →
      recommend_category (some sheet) q = [] := by
  refine ⟨recommend_none_eq q, ?_⟩
  intro sheet hm
  by_cases hq : queryNorm q = "" ∨ (queryNorm q).length < 3
  · rw [recommend_category, if_pos hq]
  · rw [recommend_eq hq, sortedMatchesFor, hm]
    rfl

unseal Rat.mul Rat.inv in
theorem recommend_degrades_to_empty_witness :
    matchesOf (trainingData demoSheet) (queryNorm "xyz123") = [] ∧
    recommend_category (some demoSheet) "xyz123" = [] :=
  ⟨by decide, (recommend_degrades_to_empty "xyz123").2 demoSheet (by decide)⟩

/-- Claim C7: the training loop ignores the header row entirely, reads the
description from column index 2 and the category from column index 3,
and silently skips any data row in which either of those cells is
missing (falsy), which then contributes no training example. -/
theorem trainingData_columns (h : RRow) (rows pre post : List RRow) (r : RRow) :
    trainingData (h :: rows) = collectTraining rows ∧
    (¬(cellTruthy (r.getD 2 none) = true ∧ cellTruthy (r.getD 3 none) = true) →
      collectTraining (pre ++ r :: post) = collectTraining (pre ++ post)) ∧
    (cellTruthy (r.getD 2 none) = true → cellTruthy (r.getD 3 none) = true →
      collectTraining (pre ++ r :: post) =
        collectTraining pre ++
          ⟨pyLower (strCell (r.getD 2 none)), strCell (r.getD 3 none)⟩ ::
            collectTraining post) := by
  refine ⟨rfl, ?_, ?_⟩
  · intro hfail
    have hcond : ¬((cellTruthy (r.getD 2 none) && cellTruthy (r.getD 3 none)) = true) := by
      rw [Bool.and_eq_true]
      exact hfail
    rw [collectTraining_append, collectTraining_append]
    congr 1
    rw [collectTraining, if_neg hcond]
  · intro h2 h3
    rw [collectTraining_append]
    congr 1
    rw [collectTraining, if_pos (by rw [Bool.and_eq_true]; exact ⟨h2, h3⟩)]

theorem trainingData_columns_witness :
    ¬(cellTruthy ([some "2024-01-01", none, some "koffie"].getD 2 none) = true ∧
      cellTruthy ([some "2024-01-01", none, some "koffie"].getD 3 none) = true) ∧
    collectTraining [[some "2024-01-01", none, some "koffie"]] = collectTraining [] ∧
    cellTruthy ([none, none, some "Koffie en thee", some "Materiaal"].getD 2 none) = true ∧
    collectTraining [[none, none, some "Koffie en thee", some "Materiaal"]] =
      collectTraining [] ++ ⟨"koffie en thee", "Materiaal"⟩ :: collectTraining [] :=
  ⟨by decide,
   (trainingData_columns [] [] [] [] [some "2024-01-01", none, some "koffie"]).2.1
     (by decide),
   by decide,
   (trainingData_columns [] [] [] [] [none, none, some "Koffie en thee", some "Materiaal"]).2.2
     (by decide) (by decide)⟩

/-- Claim C8: the recommender is deterministic: it is a pure function of the
query and the reference dataset, so two calls with the same arguments
return the same ordered sequence. -/
theorem recommend_deterministic (sheet? : Option (List RRow)) (q : String) :
    recommend_category sheet? q = recommend_category sheet? q := rfl

/-- Claim C9: tie-breaking follows dataset row order through two stable sorts:
the result is a sublist of the score-sorted match list; each returned
entry is the first element of its category there (hence categories with
equal best scores appear in first-appearance order of that list); and
each returned entry is the earliest match, in dataset row order, among
the matches of its category attaining the retained (maximal) score —
the de-duplication replaces a kept entry only on strictly greater score. -/
theorem recommend_tie_breaking (sheet : List RRow) (q : String) :
    List.Sublist (recommend_category (some sheet) q) (sortedMatchesFor sheet q) ∧
    ∀ e ∈ recommend_category (some sheet) q,
      ((sortedMatchesFor sheet q).filter
          (fun m => m.category == e.category)).head? = some e ∧
      ((matchesOf (trainingData sheet) (queryNorm q)).filter
          (fun m => m.category == e.category && m.score == e.score)).head? = some e := by
  by_cases hq : queryNorm q = "" ∨ (queryNorm q).length < 3
  · rw [recommend_category, if_pos hq]
    exact ⟨List.nil_sublist _, by simp⟩
  · rw [recommend_eq hq]
    refine ⟨(List.take_sublist _ _).trans (firstOccEx_sublist [] _), ?_⟩
    intro e he
    have heF : e ∈ firstOccEx [] (sortedMatchesFor sheet q) := List.mem_of_mem_take he
    have h1 := firstOccEx_head_filter heF
    refine ⟨h1, ?_⟩
    have hstab : (sortedMatchesFor sheet q).filter
        (fun m => m.category == e.category && m.score == e.score) =
        (matchesOf (trainingData sheet) (queryNorm q)).filter
        (fun m => m.category == e.category && m.score == e.score) :=
      filter_sortDesc _ _ (fun x y px py => by
        rw [Bool.and_eq_true] at px py
        rw [beq_iff_eq.mp px.2, beq_iff_eq.mp py.2])
    rw [← hstab]
    have hsplit : (sortedMatchesFor sheet q).filter
        (fun m => m.category == e.category && m.score == e.score) =
        ((sortedMatchesFor sheet q).filter
          (fun m => m.category == e.category)).filter (fun m => m.score == e.score) := by
      rw [List.filter_filter]
      exact List.filter_congr (fun a _ => Bool.and_comm _ _)
    rw [hsplit]
    cases hL : (sortedMatchesFor sheet q).filter (fun m => m.category == e.category) with
    | nil =>
      rw [hL] at h1
      cases h1
    | cons a t =>
      rw [hL] at h1
      have ha : a = e := by
        injection h1
      subst ha
      rw [List.filter_cons, if_pos (by simp)]
      rfl

unseal Rat.mul Rat.inv in
theorem recommend_tie_breaking_witness :
    ((sortedMatchesFor demoSheet "koffie").filter
        (fun m => m.category == "Materiaal")).head? =
      some ⟨"Materiaal", 1/3, "koffie en thee"⟩ ∧
    ((matchesOf (trainingData demoSheet) (queryNorm "koffie")).filter
        (fun m => m.category == "Materiaal" && m.score == (1 : ℚ)/3)).head? =
      some ⟨"Materiaal", 1/3, "koffie en thee"⟩ :=
  (recommend_tie_breaking demoSheet "koffie").2
    ⟨"Materiaal", 1/3, "koffie en thee"⟩ (by decide)

/-- Claim C10: the balance is 0 when the file is missing or the configured
sheet name is absent, and otherwise is the sum of the signed amounts of
the data rows — `+amount` on "Bij", `-amount` on "Af", nothing for a
non-numeric amount or any other Af/Bij value — rounded to 2 decimals.
(The catch-all exception handler is modelled by the `Option` workbook
argument together with the totality of `calculate_total_amount`.) -/
theorem calculate_total_characterization (sheetName : String) :
    calculate_total_amount none sheetName = 0 ∧
    (∀ wb : Workbook, sheetName ∉ wb.sheetnames →
      calculate_total_amount (some wb) sheetName = 0) ∧
    (∀ wb : Workbook, sheetName ∈ wb.sheetnames →
      calculate_total_amount (some wb) sheetName =
        round2 ((((wb.getSheet sheetName).drop 1).map rowContribution).sum)) := by
  refine ⟨rfl, ?_, ?_⟩
  · intro wb h
    rw [calculate_total_amount, if_neg h]
  · intro wb h
    rw [calculate_total_amount, if_pos h, foldl_totalStep, zero_add]

unseal Rat.add Rat.sub Rat.mul Rat.inv in
theorem calculate_total_characterization_witness :
    "Kas" ∉ (Workbook.mk [("Ander", [])]).sheetnames ∧
    calculate_total_amount (some (Workbook.mk [("Ander", [])])) "Kas" = 0 ∧
    "Kas" ∈ (Workbook.mk [("Kas",
        [[Cell.str "Datum"],
         [Cell.empty, Cell.empty, Cell.empty, Cell.empty, Cell.empty,
          Cell.str "Bij", Cell.num 10],
         [Cell.empty, Cell.empty, Cell.empty, Cell.empty, Cell.empty,
          Cell.str "Af", Cell.num 4]])]).sheetnames ∧
    calculate_total_amount (some (Workbook.mk [("Kas",
        [[Cell.str "Datum"],
         [Cell.empty, Cell.empty, Cell.empty, Cell.empty, Cell.empty,
          Cell.str "Bij", Cell.num 10],
         [Cell.empty, Cell.empty, Cell.empty, Cell.empty, Cell.empty,
          Cell.str "Af", Cell.num 4]])])) "Kas" =
      round2 (((((Workbook.mk [("Kas",
        [[Cell.str "Datum"],
         [Cell.empty, Cell.empty, Cell.empty, Cell.empty, Cell.empty,
          Cell.str "Bij", Cell.num 10],
         [Cell.empty, Cell.empty, Cell.empty, Cell.empty, Cell.empty,
          Cell.str "Af", Cell.num 4]])]).getSheet "Kas").drop 1).map
            rowContribution).sum) :=
  ⟨by decide,
   (calculate_total_characterization "Kas").2.1 (Workbook.mk [("Ander", [])]) (by decide),
   by decide,
   (calculate_total_characterization "Kas").2.2 _ (by decide)⟩

end Kasboek
